import Mathlib

/-!
Verification of the universal-client feature-composition library.

The TypeScript source is shallowly embedded: JavaScript objects become
association lists `List (String × α)` (key insertion order preserved,
later assignments overwrite in place), promises returning values become
pure results paired with an event trace `List Ev` that records the
temporal order of hook and transport invocations, and rejected promises
become `Except.error`.
-/

namespace UniversalClient

/-- JS primitive values, with the truthiness used by `if (x)` checks. -/
inductive Prim where
  | pnum (n : Int)
  | pstr (s : String)
  | pbool (b : Bool)
  | pnull
  | pundef
deriving DecidableEq

/-- JS truthiness of a primitive. -/
def Prim.truthy : Prim → Bool
  | .pnum n => n != 0
  | .pstr s => s != ""
  | .pbool b => b
  | .pnull => false
  | .pundef => false

/-- Updating a key in a JS object: an existing key keeps its position and is
overwritten, a new key is appended (JS object / Map insertion-order update). -/
def setKey {α : Type} : List (String × α) → String → α → List (String × α)
  | [], k, v => [(k, v)]
  | kv :: t, k, v => if kv.1 = k then (k, v) :: setKey t k v else kv :: setKey t k v

/-- JS `Object.assign(target, source)` / object spread: each source entry is
written into the target in order, later entries winning. -/
def jsAssign {α : Type} (target source : List (String × α)) : List (String × α) :=
  source.foldl (fun acc kv => setKey acc kv.1 kv.2) target

/-- First-some choice on options (JS `??` on possibly-missing lookups). -/
def jsOr {α : Type} : Option α → Option α → Option α
  | some x, _ => some x
  | none, b => b

/-- Property lookup on a JS object (first matching key). -/
def jsLookup {α : Type} : List (String × α) → String → Option α
  | [], _ => none
  | kv :: t, k => if kv.1 = k then some kv.2 else jsLookup t k

/-- Deleting a key from a JS object (rest-spread `{onInit, ...rest}` minus the key). -/
def deleteKey {α : Type} : List (String × α) → String → List (String × α)
  | [], _ => []
  | kv :: t, k => if kv.1 = k then deleteKey t k else kv :: deleteKey t k

theorem lookup_setKey {α : Type} (o : List (String × α)) (k : String) (v : α)
    (q : String) : jsLookup (setKey o k v) q = if q = k then some v else jsLookup o q := by
  induction o with
  | nil =>
    by_cases h : q = k
    · simp [setKey, jsLookup, h]
    · have h2 : ¬(k = q) := fun he => h he.symm
      simp [setKey, jsLookup, h, h2]
  | cons kv t ih =>
    by_cases h1 : kv.1 = k
    · subst h1
      simp only [setKey, if_pos rfl, jsLookup, ih]
      by_cases h2 : q = kv.1
      · simp [h2]
      · have h3 : ¬(kv.1 = q) := fun he => h2 he.symm
        simp [h2, h3]
    · simp only [setKey, if_neg h1, jsLookup, ih]
      by_cases h2 : kv.1 = q
      · have h3 : ¬(q = k) := fun he => h1 (h2.trans he)
        simp [h2, h3]
      · by_cases h3 : q = k <;> simp [h1, h2, h3]

theorem lookup_append {α : Type} (l1 l2 : List (String × α)) (q : String) :
    jsLookup (l1 ++ l2) q = jsOr (jsLookup l1 q) (jsLookup l2 q) := by
  induction l1 with
  | nil => simp [jsLookup, jsOr]
  | cons kv t ih =>
    by_cases h : kv.1 = q
    · simp [jsLookup, h, jsOr]
    · simp [jsLookup, h, ih]

theorem lookup_jsAssign {α : Type} (source target : List (String × α)) (q : String) :
    jsLookup (jsAssign target source) q =
      jsOr (jsLookup source.reverse q) (jsLookup target q) := by
  induction source generalizing target with
  | nil => simp [jsAssign, jsLookup, jsOr]
  | cons kv t ih =>
    have step : jsAssign target (kv :: t) = jsAssign (setKey target kv.1 kv.2) t := rfl
    rw [step, ih, List.reverse_cons, lookup_append, lookup_setKey]
    cases hr : jsLookup t.reverse q with
    | some x => simp [jsOr]
    | none =>
      by_cases h : kv.1 = q
      · simp [jsOr, jsLookup, h]
      · have h2 : ¬(q = kv.1) := fun he => h he.symm
        simp [jsOr, jsLookup, h, h2]

theorem lookup_none_deleteKey {α : Type} (o : List (String × α)) (k : String)
    (h : jsLookup o k = none) : deleteKey o k = o := by
  induction o with
  | nil => rfl
  | cons kv t ih =>
    by_cases hk : kv.1 = k
    · simp [jsLookup, hk] at h
    · simp only [jsLookup, if_neg hk] at h
      simp [deleteKey, hk, ih h]

theorem lookup_deleteKey {α : Type} (o : List (String × α)) (k : String) :
    jsLookup (deleteKey o k) k = none := by
  induction o with
  | nil => rfl
  | cons kv t ih =>
    by_cases hk : kv.1 = k
    · simpa [deleteKey, hk] using ih
    · simpa [deleteKey, hk, jsLookup] using ih

/-!
Feature composition engine, from `src/universal-client.ts`.

Accumulator values: the claims only need to distinguish callable values
(callable values) from the rest, so `Val` tags functions with an
id and leaves other values as integers, strings or opaque ids.
-/

/-- A value stored in the accumulator object. -/
inductive Val where
  | vint (n : Int)
  | vstr (s : String)
  | vfn (id : Nat)
  | vraw (id : Nat)
deriving DecidableEq

/-- Tests whether a value is callable (typeof v is function). -/
def Val.isCallable : Val → Bool
  | .vfn _ => true
  | _ => false

/-- The accumulator object threaded through the features. -/
abbrev Obj := List (String × Val)

/-- The reduce step of `universalClient`: for each feature in order,
`Object.assign(accumulator, feature(accumulator))`, starting from `acc`. -/
def clientFoldFrom (acc : Obj) (fs : List (Obj → Obj)) : Obj :=
  fs.foldl (fun a f => jsAssign a (f a)) acc

/-- The full reduce of `universalClient`, starting from the empty object. -/
def clientFold (fs : List (Obj → Obj)) : Obj :=
  clientFoldFrom [] fs

/-- Instrumented fold that also records the accumulator each feature receives. -/
def clientFoldTrace (acc : Obj) : List (Obj → Obj) → Obj × List Obj
  | [] => (acc, [])
  | f :: t =>
    let r := clientFoldTrace (jsAssign acc (f acc)) t
    (r.1, acc :: r.2)

/-- Embeds `universalClient(...features)`: reduce with `Object.assign`, then destructure
`{onInit, ...rest}`, call `onInit(rest)` when it is a function, and return
`rest`. The second component is the list of arguments `onInit` was invoked
with (the invocation trace, used to state the hook-invocation claims). -/
def universalClient (fs : List (Obj → Obj)) : Obj × List Obj :=
  let client := clientFold fs
  let onInitVal := jsLookup client "onInit"
  let rest := deleteKey client "onInit"
  match onInitVal with
  | some v => if v.isCallable then (rest, [rest]) else (rest, [])
  | none => (rest, [])

theorem clientFoldTrace_result (fs : List (Obj → Obj)) (acc : Obj) :
    (clientFoldTrace acc fs).1 = clientFoldFrom acc fs := by
  induction fs generalizing acc with
  | nil => rfl
  | cons f t ih => simpa [clientFoldTrace, clientFoldFrom, List.foldl_cons] using ih _

theorem clientFoldTrace_inputs (fs : List (Obj → Obj)) (acc : Obj) (n : Nat)
    (h : n < fs.length) :
    (clientFoldTrace acc fs).2.get? n = some (clientFoldFrom acc (fs.take n)) := by
  induction fs generalizing acc n with
  | nil => simp at h
  | cons f t ih =>
    cases n with
    | zero => simp [clientFoldTrace, clientFoldFrom]
    | succ m =>
      have hm : m < t.length := by simpa using h
      simpa [clientFoldTrace, clientFoldFrom, List.foldl_cons] using ih _ _ hm

/-!
Delegate capability detection, from `src/utils/delegate.utils.ts`.

The detectors test own-property presence (the JS in operator), so
they are embedded as functions on the list of the property names of an object.
The three canonical shapes list exactly the methods declared by the
`HttpDelegate`, `WebSocketDelegate` and `ServerSentEventDelegate` interfaces
in `src/types/delegate.type.ts`.
-/

def isHttpDelegate (keys : List String) : Bool :=
  keys.contains "get" && keys.contains "post" && keys.contains "patch" &&
    keys.contains "put" && keys.contains "delete"

def isWebSocketDelegate (keys : List String) : Bool :=
  keys.contains "connect" && keys.contains "send" && keys.contains "close"

def isServerSentEventDelegate (keys : List String) : Bool :=
  keys.contains "onMessage" && keys.contains "onError" && keys.contains "onOpen" &&
    keys.contains "onClose"

/-- Method names of the `HttpDelegate` interface. -/
def httpDelegateShape : List String := ["get", "post", "patch", "put", "delete"]

/-- Method names of the `WebSocketDelegate` interface. -/
def webSocketDelegateShape : List String :=
  ["connect", "send", "close", "onOpen", "onClose", "onError", "onMessage"]

/-- Method names of the `ServerSentEventDelegate` interface. -/
def serverSentEventDelegateShape : List String :=
  ["close", "onOpen", "onError", "onMessage", "subscribe"]

/-!
HTTP delegate middleware, from `src/utils/delegate-middleware.utils.ts`.

A delegate is embedded as one `Method`-indexed call function (the source
builds the five verb methods uniformly with `wrapMethod`). Each call returns
an `Except` result together with the list of events it emitted; hooks also
return event lists, so trace concatenation order models temporal order.
Responses and bodies are JS values: either an object (a property list) or a
primitive.
-/

/-- An HTTP verb method name. -/
inductive Method where
  | get | post | patch | put | delete
deriving DecidableEq

/-- The read-only verbs, whose wrapped signature is `(url, options?)`. -/
def Method.isGetOrDelete : Method → Bool
  | .get => true
  | .delete => true
  | _ => false

/-- Converts a method name to its string, as in String(methodName). -/
def Method.nameStr : Method → String
  | .get => "get"
  | .post => "post"
  | .patch => "patch"
  | .put => "put"
  | .delete => "delete"

/-- A JS value used as request body or response. -/
inductive Rsp where
  | vobj (props : List (String × Prim))
  | vprim (p : Prim)
deriving DecidableEq

/-- Own enumerable properties contributed by a value under object spread. -/
def Rsp.props : Rsp → List (String × Prim)
  | .vobj ps => ps
  | .vprim _ => []

/-- JS truthiness of a response value (objects are truthy, `null` and
`undefined` are primitives here and are falsy). -/
def Rsp.truthy : Rsp → Bool
  | .vobj _ => true
  | .vprim p => p.truthy

/-- Tests for a non-null object (typeof v is object, and v is not null). -/
def Rsp.isObject : Rsp → Bool
  | .vobj _ => true
  | .vprim _ => false

/-- Events recorded by hooks and transports; the trace order models the
temporal order of hook and transport execution. -/
abbrev Ev := String

/-- Error values carried by rejected promises. -/
abbrev Err := String

/-- Header maps (`Record<string, string>`). -/
abbrev Headers := List (String × String)

/-- Embeds `HttpRequestOptions` from `src/types/delegate.type.ts`. -/
structure HttpRequestOptions where
  headers : Option Headers
  params : Option (List (String × String))
deriving DecidableEq

/-- Embeds `RequestInterceptorContext`. The `method` field of the source context is
kept as the fixed verb: hooks may overwrite it but nothing in the wrapper
ever reads it back (`after`/`error` receive `methodName`, the transport is
the captured `originalMethod`), so the overwrite is unobservable. -/
structure RequestInterceptorContext where
  method : Method
  url : String
  headers : Option Headers
  body : Option Rsp
deriving DecidableEq

/-- Embeds `Partial<RequestInterceptorContext>` as returned by a `before` hook:
each field is either absent or present (and `headers`/`body` may be present
with the value `undefined`, i.e. `some none`). -/
structure PartialRequestContext where
  url : Option String
  headers : Option (Option Headers)
  body : Option (Option Rsp)
deriving DecidableEq

/-- Embeds `ResponseInterceptorContext`. -/
structure ResponseInterceptorContext where
  method : Method
  url : String
  response : Rsp
deriving DecidableEq

/-- Embeds `HttpInterceptor`: the hook triple. Each hook returns its value together
with the events it emitted. A `before` result of `none` models returning
`undefined` (or any non-object), which leaves the context unchanged. -/
structure HttpInterceptor where
  before : Option (RequestInterceptorContext → Option PartialRequestContext × List Ev)
  after : Option (ResponseInterceptorContext → Option Rsp × List Ev)
  error : Option (Method → String → Err → Option Rsp → List Ev)

/-- An HTTP delegate: the five verb methods as one indexed call, receiving
`(url, body, options)` (body is `none` for the read-only verbs). -/
abbrev HttpDelegate :=
  Method → String → Option Rsp → Option HttpRequestOptions → Except Err Rsp × List Ev

/-- The initial interceptor context:
`{ method: methodName, url, headers: options?.headers ?? {}, body }` with
`body` forced to `undefined` for the read-only verbs. -/
def initialCtx (m : Method) (url : String) (bodyArg : Option Rsp)
    (optionsArg : Option HttpRequestOptions) : RequestInterceptorContext :=
  ⟨m, url, some ((optionsArg.bind (fun o => o.headers)).getD []),
    if m.isGetOrDelete then none else bodyArg⟩

/-- Computes `context = { ...context, ...beforeResult }` when the `before` result is a
non-null object, else the context unchanged. -/
def applyBeforeResult (ctx : RequestInterceptorContext)
    (r : Option PartialRequestContext) : RequestInterceptorContext :=
  match r with
  | none => ctx
  | some br =>
    ⟨ctx.method, br.url.getD ctx.url,
      match br.headers with
      | some h => h
      | none => ctx.headers,
      match br.body with
      | some b => b
      | none => ctx.body⟩

/-- Runs the `before` hook (when present) on the initial context and returns
the possibly modified context together with the events of the hook. -/
def ctxAfterBefore (i : HttpInterceptor) (m : Method) (url : String)
    (bodyArg : Option Rsp) (optionsArg : Option HttpRequestOptions) :
    RequestInterceptorContext × List Ev :=
  match i.before with
  | none => (initialCtx m url bodyArg optionsArg, [])
  | some f =>
    let r := f (initialCtx m url bodyArg optionsArg)
    (applyBeforeResult (initialCtx m url bodyArg optionsArg) r.1, r.2)

/-- Computes `const finalOptions = context.headers ? { headers: context.headers } :
undefined` — the wrapper forwards only the headers, never `params`. -/
def finalOptionsOf (ctx : RequestInterceptorContext) : Option HttpRequestOptions :=
  match ctx.headers with
  | some h => some ⟨some h, none⟩
  | none => none

/-- The body argument handed to the original method (omitted for the
read-only verbs). -/
def passedBody (m : Method) (ctx : RequestInterceptorContext) : Option Rsp :=
  if m.isGetOrDelete then none else ctx.body

/-- Computes `response = { ...response, ...afterResult }` when the `after` result is a
non-null object, else the response unchanged. -/
def applyAfterResult (response : Rsp) (ar : Option Rsp) : Rsp :=
  match ar with
  | some r => if r.isObject then Rsp.vobj (jsAssign response.props r.props) else response
  | none => response

/-- Runs the `after` hook (when present) on `{method, url, response}` and
returns the response to hand back to the caller plus the events of the hook. -/
def afterOutcome (i : HttpInterceptor) (m : Method) (curl : String)
    (response : Rsp) : Rsp × List Ev :=
  match i.after with
  | none => (response, [])
  | some f =>
    let r := f ⟨m, curl, response⟩
    (applyAfterResult response r.1, r.2)

/-- The events of the `error` hook, invoked as
`interceptor.error(methodName, context.url, error, context.body)`. -/
def errorHookEvents (i : HttpInterceptor) (m : Method)
    (ctx : RequestInterceptorContext) (e : Err) : List Ev :=
  match i.error with
  | none => []
  | some f => f m ctx.url e ctx.body

/-- Embeds `wrapHttpDelegate(delegate, interceptor)`: run `before`, call the original
method with the (possibly modified) url/body/headers, then on success run
`after` (its object result is spread-merged over the response), and on
failure run `error` and rethrow the original error. -/
def wrapHttpDelegate (delegate : HttpDelegate) (interceptor : HttpInterceptor) :
    HttpDelegate :=
  fun m url bodyArg optionsArg =>
    let cb := ctxAfterBefore interceptor m url bodyArg optionsArg
    let res := delegate m cb.1.url (passedBody m cb.1) (finalOptionsOf cb.1)
    match res.1 with
    | Except.ok response =>
      let ao := afterOutcome interceptor m cb.1.url response
      (Except.ok ao.1, cb.2 ++ res.2 ++ ao.2)
    | Except.error e =>
      (Except.error e, cb.2 ++ res.2 ++ errorHookEvents interceptor m cb.1 e)

/-!
Environments feature, from
`src/features/delegate/with-environments/with-environments.feature.ts`.
`||` fallbacks treat the empty string as falsy, exactly as in JS.
-/

/-- The `environments` table plus optional `default` and `fallback` keys. -/
structure EnvironmentsConfig where
  environments : List (String × String)
  defaultEnv : Option String
  fallbackEnv : Option String

/-- Computes `Object.keys(config.environments)[0]`, or `""` for an empty table (the
claims never exercise the empty table). -/
def firstEnvKey (cfg : EnvironmentsConfig) : String :=
  (cfg.environments.head?.map (fun kv => kv.1)).getD ""

/-- Computes `const defaultKey = config.default || environmentKeys[0]`. -/
def defaultKey (cfg : EnvironmentsConfig) : String :=
  match cfg.defaultEnv with
  | some d => if d = "" then firstEnvKey cfg else d
  | none => firstEnvKey cfg

/-- Embeds `setEnvironment(env)`: an unknown (or empty-valued) name falls back to
`config.fallback || defaultKey` with a warning; a known name is selected. -/
def setEnvironment (cfg : EnvironmentsConfig) (env : String) : String :=
  let fb := match cfg.fallbackEnv with
    | some f => if f = "" then defaultKey cfg else f
    | none => defaultKey cfg
  match jsLookup cfg.environments env with
  | some v => if v = "" then fb else env
  | none => fb

/-- Embeds `getBaseURL()`:
`config.environments[currentEnv] || config.environments[keys[0]]`. -/
def getBaseURL (cfg : EnvironmentsConfig) (cur : String) : String :=
  let firstVal := (jsLookup cfg.environments (firstEnvKey cfg)).getD ""
  match jsLookup cfg.environments cur with
  | some v => if v = "" then firstVal else v
  | none => firstVal

/-- Char-list prefix test, modelling JS `String.prototype.startsWith`. -/
def charsStartWith : List Char → List Char → Bool
  | _, [] => true
  | [], _ :: _ => false
  | c :: s, p :: ps => if c = p then charsStartWith s ps else false

/-- JS `s.startsWith(p)`. -/
def strStartsWith (s p : String) : Bool :=
  charsStartWith s.data p.data

/-- JS `s.endsWith(p)`. -/
def strEndsWith (s p : String) : Bool :=
  charsStartWith s.data.reverse p.data.reverse

/-- Dropping the last `n` characters of a string. -/
def strDropRight (s : String) (n : Nat) : String :=
  ⟨s.data.take (s.data.length - n)⟩

/-- Computes the replace of baseURL with the trailing-slash regex: drop one trailing slash. -/
def stripOneTrailingSlash (s : String) : String :=
  if strEndsWith s "/" then strDropRight s 1 else s

/-- Embeds `buildFullURL`: a url starting with the literal prefix `"http"` passes
through unchanged; anything else is treated as relative and appended to the
base with single-slash normalization. -/
def buildFullURL (baseURL url : String) : String :=
  if strStartsWith url "http" then url
  else stripOneTrailingSlash baseURL ++ (if strStartsWith url "/" then url else "/" ++ url)

/-- The interceptor installed by `wrapHttpDelegateWithEnvironments`: a
`before` hook returning `{ url: buildFullURL(context.url) }`, reading the
current environment of the manager (`cur`) at call time. -/
def environmentsInterceptor (cfg : EnvironmentsConfig) (cur : String) :
    HttpInterceptor :=
  ⟨some (fun ctx => (some ⟨some (buildFullURL (getBaseURL cfg cur) ctx.url), none, none⟩, [])),
    none, none⟩

/-- Holds the dev/prod environments table of the scenario in the spec. -/
def devProdCfg : EnvironmentsConfig :=
  ⟨[("dev", "http://localhost:3000"), ("prod", "https://api.example.com")], none, none⟩

/-!
Offline feature (cache-first strategy), from the offline feature source
(`wrapHttpDelegateWithOffline` / `createOfflineManager`). The cache, the
clock and the network-invocation counter are passed explicitly; the counter
models the construction-counter collaborator of the scenario in the spec.
-/

/-- A cached response with its write timestamp and TTL. -/
structure CacheEntry where
  data : Rsp
  timestamp : Nat
  ttl : Nat
deriving DecidableEq

/-- Holds the mutable state of the offline manager: the cache map plus the number of
network invocations performed so far. -/
structure OffState where
  cache : List (String × CacheEntry)
  netCalls : Nat
deriving DecidableEq

/-- A crude `JSON.stringify` (only used to build cache keys). -/
def Prim.stringify : Prim → String
  | .pnum n => toString n
  | .pstr s => "\"" ++ s ++ "\""
  | .pbool b => if b then "true" else "false"
  | .pnull => "null"
  | .pundef => "undefined"

/-- Runs the crude stringify on a body value. -/
def Rsp.stringify : Rsp → String
  | .vprim p => p.stringify
  | .vobj ps =>
    "\x7b" ++ String.intercalate ","
      (ps.map (fun kv => "\"" ++ kv.1 ++ "\":" ++ kv.2.stringify)) ++ "\x7d"

/-- Embeds `generateCacheKey(method, url, body)`: the method, the url and the
stringified body (empty for a falsy body), joined by colons. -/
def generateCacheKey (method url : String) (body : Option Rsp) : String :=
  let bodyStr := match body with
    | none => ""
    | some b => if b.truthy then b.stringify else ""
  method ++ ":" ++ url ++ ":" ++ bodyStr

/-- Embeds `getFromCache(key)`: a hit returns the data; an expired entry is evicted
on access and reads as a miss. Returns the (possibly updated) cache. -/
def getFromCache (cache : List (String × CacheEntry)) (now : Nat) (key : String) :
    Option Rsp × List (String × CacheEntry) :=
  match jsLookup cache key with
  | none => (none, cache)
  | some e =>
    if now - e.timestamp > e.ttl then (none, deleteKey cache key)
    else (some e.data, cache)

/-- The effective body of a call (`undefined` for the read-only verbs). -/
def effBody (m : Method) (bodyArg : Option Rsp) : Option Rsp :=
  if m.isGetOrDelete then none else bodyArg

/-- The distinct offline error thrown by the cache-first strategy. -/
def offlineError (m : Method) (url : String) : Err :=
  "[OFFLINE] No cache available and offline for " ++ m.nameStr ++ " " ++ url

/-- One wrapped call in `cache-first` mode: serve the cached value when the
lookup hits and the value is truthy (`if (cached)`); otherwise, when online,
hit the network (counting the invocation) and populate the cache on success;
otherwise reject with the offline error. The request options are forwarded
to the network unchanged and are omitted from the model. -/
def cacheFirstCall (cacheTTL : Nat) (online : Bool) (now : Nat)
    (net : Method → String → Option Rsp → Except Err Rsp)
    (m : Method) (url : String) (bodyArg : Option Rsp) (s : OffState) :
    Except Err Rsp × OffState :=
  let body := effBody m bodyArg
  let key := generateCacheKey m.nameStr url body
  let gc := getFromCache s.cache now key
  let onMiss : Except Err Rsp × OffState :=
    if online then
      match net m url body with
      | Except.ok result =>
        (Except.ok result, ⟨setKey gc.2 key ⟨result, now, cacheTTL⟩, s.netCalls + 1⟩)
      | Except.error e => (Except.error e, ⟨gc.2, s.netCalls + 1⟩)
    else (Except.error (offlineError m url), ⟨gc.2, s.netCalls⟩)
  match gc.1 with
  | some cached =>
    if cached.truthy then (Except.ok cached, ⟨gc.2, s.netCalls⟩) else onMiss
  | none => onMiss

/-!
Lazy HTTP delegate, from `createLazyHttpDelegate` in
`src/utils/delegate.utils.ts`. The shared closure variables `delegate`,
`loading`, `error` and the callers of `ensureDelegate` form a small-step
transition system: each constructor below is one synchronous segment of
`ensureDelegate` between suspension points, callers being interchangeable
are tracked by counts, and `cres` is the (fixed) outcome of
`createHttpDelegate(options)`. `constructions` counts how many times the
underlying construction was started; `dones` collects the outcome each
completed caller observed.
-/

/-- The shared lazy-delegate state plus the caller population. -/
structure LazySys where
  delegate : Option Nat
  loading : Bool
  error : Option Err
  constructions : Nat
  nStart : Nat
  nPolling : Nat
  nConstructing : Nat
  dones : List (Except Err Nat)

/-- What a poller returns when it leaves the `while (loading)` loop:
`if (error) throw error; return delegate` (the `null` cast is modeled as
id `0`; the invariant shows it is never reached). -/
def pollResult (s : LazySys) : Except Err Nat :=
  match s.error with
  | some e => Except.error e
  | none => Except.ok (s.delegate.getD 0)

/-- One interleaved step of the lazy-construction system. -/
inductive LazyStep (cres : Except Err Nat) : LazySys → LazySys → Prop where
  | hitDelegate (s : LazySys) (d : Nat) :
      s.nStart ≥ 1 → s.delegate = some d →
      LazyStep cres s { s with nStart := s.nStart - 1, dones := Except.ok d :: s.dones }
  | hitError (s : LazySys) (e : Err) :
      s.nStart ≥ 1 → s.delegate = none → s.error = some e →
      LazyStep cres s { s with nStart := s.nStart - 1, dones := Except.error e :: s.dones }
  | enterPolling (s : LazySys) :
      s.nStart ≥ 1 → s.delegate = none → s.error = none → s.loading = true →
      LazyStep cres s { s with nStart := s.nStart - 1, nPolling := s.nPolling + 1 }
  | beginConstruction (s : LazySys) :
      s.nStart ≥ 1 → s.delegate = none → s.error = none → s.loading = false →
      LazyStep cres s
        { s with nStart := s.nStart - 1, nConstructing := s.nConstructing + 1,
                 loading := true, constructions := s.constructions + 1 }
  | finishOk (s : LazySys) (d : Nat) :
      s.nConstructing ≥ 1 → cres = Except.ok d →
      LazyStep cres s
        { s with nConstructing := s.nConstructing - 1, loading := false,
                 delegate := some d, dones := Except.ok d :: s.dones }
  | finishError (s : LazySys) (e : Err) :
      s.nConstructing ≥ 1 → cres = Except.error e →
      LazyStep cres s
        { s with nConstructing := s.nConstructing - 1, loading := false,
                 error := some e, dones := Except.error e :: s.dones }
  | pollExit (s : LazySys) :
      s.nPolling ≥ 1 → s.loading = false →
      LazyStep cres s { s with nPolling := s.nPolling - 1, dones := pollResult s :: s.dones }

/-- The initial state: nothing constructed, `n` callers about to make their
first call. -/
def initLazy (n : Nat) : LazySys :=
  ⟨none, false, none, 0, n, 0, 0, []⟩

/-- Reachability from the initial state under interleaved steps. -/
def LazyReachable (cres : Except Err Nat) (n : Nat) (s : LazySys) : Prop :=
  Relation.ReflTransGen (LazyStep cres) (initLazy n) s

/-- The inductive invariant of the lazy-construction system. -/
structure LazyInv (cres : Except Err Nat) (s : LazySys) : Prop where
  cons_le : s.constructions ≤ 1
  zero_quiet : s.constructions = 0 →
    s.delegate = none ∧ s.error = none ∧ s.loading = false ∧
      s.nPolling = 0 ∧ s.nConstructing = 0 ∧ s.dones = []
  loading_mid : s.loading = true →
    s.delegate = none ∧ s.error = none ∧ s.constructions = 1 ∧ s.nConstructing = 1
  notloading : s.loading = false → s.nConstructing = 0
  deleg : ∀ d, s.delegate = some d →
    cres = Except.ok d ∧ s.loading = false ∧ s.error = none ∧ s.constructions = 1
  err : ∀ e, s.error = some e →
    cres = Except.error e ∧ s.loading = false ∧ s.delegate = none ∧ s.constructions = 1
  one_resolved : s.constructions = 1 →
    s.loading = true ∨ s.delegate ≠ none ∨ s.error ≠ none
  dones_ok : ∀ r ∈ s.dones, r = cres

theorem lazyInv_init (cres : Except Err Nat) (n : Nat) : LazyInv cres (initLazy n) := by
  refine ⟨?_, ?_, ?_, ?_, ?_, ?_, ?_, ?_⟩ <;> simp [initLazy]

theorem lazyInv_step {cres : Except Err Nat} {s s' : LazySys}
    (hinv : LazyInv cres s) (hstep : LazyStep cres s s') : LazyInv cres s' := by
  cases hstep with
  | hitDelegate d h1 h2 =>
    obtain ⟨hcr, hlf, hen, hc1⟩ := hinv.deleg d h2
    refine ⟨hinv.cons_le, ?_, hinv.loading_mid, hinv.notloading, hinv.deleg, hinv.err,
      hinv.one_resolved, ?_⟩
    · intro h0
      replace h0 : s.constructions = 0 := h0
      rw [h0] at hc1
      exact absurd hc1 (by decide)
    · intro r hr
      rcases List.mem_cons.mp hr with h | h
      · rw [h]; exact hcr.symm
      · exact hinv.dones_ok r h
  | hitError e h1 h2 h3 =>
    obtain ⟨hcr, hlf, hdn, hc1⟩ := hinv.err e h3
    refine ⟨hinv.cons_le, ?_, hinv.loading_mid, hinv.notloading, hinv.deleg, hinv.err,
      hinv.one_resolved, ?_⟩
    · intro h0
      replace h0 : s.constructions = 0 := h0
      rw [h0] at hc1
      exact absurd hc1 (by decide)
    · intro r hr
      rcases List.mem_cons.mp hr with h | h
      · rw [h]; exact hcr.symm
      · exact hinv.dones_ok r h
  | enterPolling h1 h2 h3 h4 =>
    obtain ⟨_, _, hc1, _⟩ := hinv.loading_mid h4
    refine ⟨hinv.cons_le, ?_, hinv.loading_mid, hinv.notloading, hinv.deleg, hinv.err,
      hinv.one_resolved, hinv.dones_ok⟩
    · intro h0
      replace h0 : s.constructions = 0 := h0
      rw [h0] at hc1
      exact absurd hc1 (by decide)
  | beginConstruction h1 h2 h3 h4 =>
    have hnc0 : s.nConstructing = 0 := hinv.notloading h4
    have hc0 : s.constructions = 0 := by
      rcases Nat.eq_zero_or_pos s.constructions with h0 | hp
      · exact h0
      · have h1' : s.constructions = 1 := le_antisymm hinv.cons_le hp
        rcases hinv.one_resolved h1' with hl | hd | he
        · rw [h4] at hl; exact absurd hl (by decide)
        · exact absurd h2 hd
        · exact absurd h3 he
    refine ⟨?_, ?_, ?_, ?_, ?_, ?_, ?_, hinv.dones_ok⟩
    · show s.constructions + 1 ≤ 1
      omega
    · intro h0
      replace h0 : s.constructions + 1 = 0 := h0
      exact absurd h0 (by omega)
    · intro _
      refine ⟨h2, h3, ?_, ?_⟩
      · show s.constructions + 1 = 1
        omega
      · show s.nConstructing + 1 = 1
        omega
    · intro hfalse
      exact Bool.noConfusion (show true = false from hfalse)
    · intro d hd
      replace hd : s.delegate = some d := hd
      rw [h2] at hd
      exact Option.noConfusion hd
    · intro e he
      replace he : s.error = some e := he
      rw [h3] at he
      exact Option.noConfusion he
    · intro _
      exact Or.inl rfl
  | finishOk d h1 h2 =>
    have hl : s.loading = true := by
      cases hb : s.loading
      · have h0 := hinv.notloading hb
        exact absurd h1 (by omega)
      · rfl
    obtain ⟨hdn, hen, hc1, hnc1⟩ := hinv.loading_mid hl
    refine ⟨hinv.cons_le, ?_, ?_, ?_, ?_, ?_, ?_, ?_⟩
    · intro h0
      replace h0 : s.constructions = 0 := h0
      rw [h0] at hc1
      exact absurd hc1 (by decide)
    · intro hfalse
      exact Bool.noConfusion (show false = true from hfalse)
    · intro _
      show s.nConstructing - 1 = 0
      omega
    · intro d' hd'
      replace hd' : some d = some d' := hd'
      injection hd' with hdd
      rw [← hdd]
      exact ⟨h2, rfl, hen, hc1⟩
    · intro e he
      replace he : s.error = some e := he
      rw [hen] at he
      exact Option.noConfusion he
    · intro _
      exact Or.inr (Or.inl (fun hnone => Option.noConfusion (show some d = none from hnone)))
    · intro r hr
      rcases List.mem_cons.mp hr with h | h
      · rw [h]; exact h2.symm
      · exact hinv.dones_ok r h
  | finishError e h1 h2 =>
    have hl : s.loading = true := by
      cases hb : s.loading
      · have h0 := hinv.notloading hb
        exact absurd h1 (by omega)
      · rfl
    obtain ⟨hdn, hen, hc1, hnc1⟩ := hinv.loading_mid hl
    refine ⟨hinv.cons_le, ?_, ?_, ?_, ?_, ?_, ?_, ?_⟩
    · intro h0
      replace h0 : s.constructions = 0 := h0
      rw [h0] at hc1
      exact absurd hc1 (by decide)
    · intro hfalse
      exact Bool.noConfusion (show false = true from hfalse)
    · intro _
      show s.nConstructing - 1 = 0
      omega
    · intro d' hd'
      replace hd' : s.delegate = some d' := hd'
      rw [hdn] at hd'
      exact Option.noConfusion hd'
    · intro e' he'
      replace he' : some e = some e' := he'
      injection he' with hee
      rw [← hee]
      exact ⟨h2, rfl, hdn, hc1⟩
    · intro _
      exact Or.inr (Or.inr (fun hnone => Option.noConfusion (show some e = none from hnone)))
    · intro r hr
      rcases List.mem_cons.mp hr with h | h
      · rw [h]; exact h2.symm
      · exact hinv.dones_ok r h
  | pollExit h1 h2 =>
    have hc1 : s.constructions = 1 := by
      rcases Nat.eq_zero_or_pos s.constructions with h0 | hp
      · have := (hinv.zero_quiet h0).2.2.2.1
        exact absurd h1 (by omega)
      · exact le_antisymm hinv.cons_le hp
    have hpc : pollResult s = cres := by
      rcases hinv.one_resolved hc1 with hl | hd | he
      · rw [h2] at hl; exact absurd hl (by decide)
      · rcases Option.ne_none_iff_exists.mp hd with ⟨d, hd'⟩
        obtain ⟨hcr, _, hen, _⟩ := hinv.deleg d hd'.symm
        rw [hcr]
        simp [pollResult, hen, ← hd']
      · rcases Option.ne_none_iff_exists.mp he with ⟨e, he'⟩
        obtain ⟨hcr, _, _, _⟩ := hinv.err e he'.symm
        rw [hcr]
        simp [pollResult, ← he']
    refine ⟨hinv.cons_le, ?_, hinv.loading_mid, hinv.notloading, hinv.deleg, hinv.err,
      hinv.one_resolved, ?_⟩
    · intro h0
      replace h0 : s.constructions = 0 := h0
      rw [h0] at hc1
      exact absurd hc1 (by decide)
    · intro r hr
      rcases List.mem_cons.mp hr with h | h
      · rw [h]; exact hpc
      · exact hinv.dones_ok r h

theorem lazyInv_reachable (cres : Except Err Nat) (n : Nat) (s : LazySys)
    (h : LazyReachable cres n s) : LazyInv cres s := by
  induction h with
  | refl => exact lazyInv_init cres n
  | tail _ hstep ih => exact lazyInv_step ih hstep

/-!
Claim theorems.
-/

/-- C9: for a lazily constructed HTTP delegate, any interleaving of first
calls starts the underlying construction at most once (and exactly once as
soon as any caller has completed), every completed caller observes the one
construction outcome, and when construction fails every current and
subsequent completed call rejects with that same cached error — with no
second construction attempt. -/
theorem lazy_single_flight (cres : Except Err Nat) (n : Nat) (s : LazySys)
    (h : LazyReachable cres n s) :
    s.constructions ≤ 1
    ∧ (s.dones ≠ [] → s.constructions = 1)
    ∧ (∀ r ∈ s.dones, r = cres)
    ∧ (∀ e, cres = Except.error e → ∀ r ∈ s.dones, r = Except.error e) := by
  have hinv := lazyInv_reachable cres n s h
  refine ⟨hinv.cons_le, ?_, hinv.dones_ok, ?_⟩
  · intro hne
    rcases Nat.eq_zero_or_pos s.constructions with h0 | hp
    · exact absurd (hinv.zero_quiet h0).2.2.2.2.2 hne
    · exact le_antisymm hinv.cons_le hp
  · intro e he r hr
    rw [← he]
    exact hinv.dones_ok r hr

def lazyS1 : LazySys := ⟨none, true, none, 1, 1, 0, 1, []⟩

def lazyS2 : LazySys := ⟨none, true, none, 1, 0, 1, 1, []⟩

def lazyS3 : LazySys := ⟨some 7, false, none, 1, 0, 1, 0, [Except.ok 7]⟩

def lazyDemoFinal : LazySys := ⟨some 7, false, none, 1, 0, 0, 0, [Except.ok 7, Except.ok 7]⟩

theorem lazy_single_flight_witness :
    lazyDemoFinal.constructions = 1
    ∧ (∀ r ∈ lazyDemoFinal.dones, r = Except.ok 7) := by
  have t1 : LazyStep (Except.ok 7) (initLazy 2) lazyS1 :=
    LazyStep.beginConstruction (initLazy 2) (by decide) rfl rfl rfl
  have t2 : LazyStep (Except.ok 7) lazyS1 lazyS2 :=
    LazyStep.enterPolling lazyS1 (by decide) rfl rfl rfl
  have t3 : LazyStep (Except.ok 7) lazyS2 lazyS3 :=
    LazyStep.finishOk lazyS2 7 (by decide) rfl
  have t4 : LazyStep (Except.ok 7) lazyS3 lazyDemoFinal :=
    LazyStep.pollExit lazyS3 (by decide) rfl
  have hr : LazyReachable (Except.ok 7) 2 lazyDemoFinal :=
    Relation.ReflTransGen.tail
      (Relation.ReflTransGen.tail
        (Relation.ReflTransGen.tail (Relation.ReflTransGen.single t1) t2) t3) t4
  have h := lazy_single_flight (Except.ok 7) 2 lazyDemoFinal hr
  exact ⟨h.2.1 (by simp [lazyDemoFinal]), h.2.2.1⟩

/-- C1 counterexample: when the fold produces an `onInit` key,
`universalClient` does not return the fold result — the key is stripped. -/
theorem universalClient_not_raw_fold :
    (universalClient [fun _ => [("onInit", Val.vfn 0)]]).1 = []
    ∧ clientFold [fun _ => [("onInit", Val.vfn 0)]] = [("onInit", Val.vfn 0)]
    ∧ (universalClient [fun _ => [("onInit", Val.vfn 0)]]).1
        ≠ clientFold [fun _ => [("onInit", Val.vfn 0)]] := by
  refine ⟨rfl, rfl, ?_⟩
  decide

/-- C1 (amended): `universalClient` returns the iterative shallow-merge fold
with the `onInit` key removed (and equals the fold exactly when the fold has
no `onInit` key); the fold splits at any point; `Object.assign` gives
partial keys (latest entry winning) priority over accumulator keys; and the
accumulator a feature receives is exactly the fold of the features before
it, so no feature observes keys contributed by later features. -/
theorem universalClient_fold (fs : List (Obj → Obj)) :
    (universalClient fs).1 = deleteKey (clientFold fs) "onInit"
    ∧ (jsLookup (clientFold fs) "onInit" = none → (universalClient fs).1 = clientFold fs)
    ∧ (∀ (acc : Obj) (gs hs : List (Obj → Obj)),
        clientFoldFrom acc (gs ++ hs) = clientFoldFrom (clientFoldFrom acc gs) hs)
    ∧ (∀ (acc piece : Obj) (k : String),
        jsLookup (jsAssign acc piece) k = jsOr (jsLookup piece.reverse k) (jsLookup acc k))
    ∧ (∀ (acc : Obj) (n : Nat), n < fs.length →
        (clientFoldTrace acc fs).2.get? n = some (clientFoldFrom acc (fs.take n))) := by
  have hrest : (universalClient fs).1 = deleteKey (clientFold fs) "onInit" := by
    simp only [universalClient]
    cases jsLookup (clientFold fs) "onInit" with
    | none => rfl
    | some v =>
      by_cases hc : v.isCallable = true
      · simp [hc]
      · simp [hc]
  refine ⟨hrest, ?_, ?_, ?_, ?_⟩
  · intro hnone
    rw [hrest, lookup_none_deleteKey _ _ hnone]
  · intro acc gs hs
    simp [clientFoldFrom, List.foldl_append]
  · intro acc piece k
    exact lookup_jsAssign piece acc k
  · intro acc n hn
    exact clientFoldTrace_inputs fs acc n hn

theorem universalClient_fold_witness :
    (universalClient [fun _ => [("a", Val.vint 1)]]).1 = clientFold [fun _ => [("a", Val.vint 1)]]
    ∧ (clientFoldTrace [] [fun _ => [("a", Val.vint 1)]]).2.get? 0
        = some (clientFoldFrom [] ([fun (_ : Obj) => [("a", Val.vint 1)]].take 0)) :=
  ⟨(universalClient_fold [fun _ => [("a", Val.vint 1)]]).2.1 (by decide),
   (universalClient_fold [fun _ => [("a", Val.vint 1)]]).2.2.2.2 [] 0 (by decide)⟩

/-- C3: the returned client never contains an `onInit` property (it equals
the fold minus the `onInit` key whether or not the value was callable), and
a callable `onInit` is invoked exactly once, at the end of composition, with
the final accumulator minus the `onInit` key itself; a non-callable `onInit`
(or no `onInit` at all) means no invocation. -/
theorem universalClient_onInit (fs : List (Obj → Obj)) :
    jsLookup (universalClient fs).1 "onInit" = none
    ∧ (universalClient fs).1 = deleteKey (clientFold fs) "onInit"
    ∧ (∀ v, jsLookup (clientFold fs) "onInit" = some v → v.isCallable = true →
        (universalClient fs).2 = [deleteKey (clientFold fs) "onInit"])
    ∧ (∀ v, jsLookup (clientFold fs) "onInit" = some v → v.isCallable = false →
        (universalClient fs).2 = [])
    ∧ (jsLookup (clientFold fs) "onInit" = none → (universalClient fs).2 = []) := by
  have hrest : (universalClient fs).1 = deleteKey (clientFold fs) "onInit" := by
    simp only [universalClient]
    cases jsLookup (clientFold fs) "onInit" with
    | none => rfl
    | some v =>
      by_cases hc : v.isCallable = true
      · simp [hc]
      · simp [hc]
  refine ⟨?_, hrest, ?_, ?_, ?_⟩
  · rw [hrest]
    exact lookup_deleteKey _ _
  · intro v hv hc
    simp [universalClient, hv, hc]
  · intro v hv hc
    simp [universalClient, hv, hc]
  · intro hnone
    simp [universalClient, hnone]

theorem universalClient_onInit_witness :
    (universalClient [fun _ => [("x", Val.vint 1), ("onInit", Val.vfn 7)]]).2
      = [deleteKey (clientFold [fun _ => [("x", Val.vint 1), ("onInit", Val.vfn 7)]]) "onInit"] :=
  (universalClient_onInit [fun _ => [("x", Val.vint 1), ("onInit", Val.vfn 7)]]).2.2.1
    (Val.vfn 7) (by decide) (by decide)

/-- C4: the three capability detectors are not mutually exclusive — the
canonical `WebSocketDelegate` shape satisfies both the WebSocket and the
SSE detector (the SSE detector tests `onClose`, which the
`ServerSentEventDelegate` interface does not even declare, instead of
`subscribe`), and the canonical `ServerSentEventDelegate` shape satisfies
no detector at all. -/
theorem detectors_not_disjoint :
    isHttpDelegate httpDelegateShape = true
    ∧ isWebSocketDelegate httpDelegateShape = false
    ∧ isServerSentEventDelegate httpDelegateShape = false
    ∧ isWebSocketDelegate webSocketDelegateShape = true
    ∧ isServerSentEventDelegate webSocketDelegateShape = true
    ∧ isHttpDelegate webSocketDelegateShape = false
    ∧ isServerSentEventDelegate serverSentEventDelegateShape = false
    ∧ isWebSocketDelegate serverSentEventDelegateShape = false
    ∧ isHttpDelegate serverSentEventDelegateShape = false := by
  decide

def onionDemoDelegate : HttpDelegate :=
  fun _ u _ _ => (Except.ok (Rsp.vobj []), ["transport " ++ u])

def interceptorA : HttpInterceptor :=
  ⟨some (fun ctx => (some ⟨some "/A", none, none⟩, ["A.before saw " ++ ctx.url])),
   some (fun _ => (none, ["A.after"])), none⟩

def interceptorB : HttpInterceptor :=
  ⟨some (fun ctx => (none, ["B.before saw " ++ ctx.url])),
   some (fun _ => (none, ["B.after"])), none⟩

/-- C2 counterexample: with delegate D wrapped first by A and then by B, the
outermost wrap (B) runs its `before` first, so the `before`-modified URL from
A is *not* visible to the `before` of B (B observed the original `/x`, never
`/A`), and the `after` of A runs strictly before the `after` of B on the
response path. -/
theorem onion_order_counterexample :
    (wrapHttpDelegate (wrapHttpDelegate onionDemoDelegate interceptorA) interceptorB
        Method.get "/x" none none).2
      = ["B.before saw /x", "A.before saw /x", "transport /A", "A.after", "B.after"]
    ∧ "B.before saw /A" ∉
        (wrapHttpDelegate (wrapHttpDelegate onionDemoDelegate interceptorA) interceptorB
          Method.get "/x" none none).2
    ∧ (wrapHttpDelegate (wrapHttpDelegate onionDemoDelegate interceptorA) interceptorB
        Method.get "/x" none none).2.indexOf "A.after"
      < (wrapHttpDelegate (wrapHttpDelegate onionDemoDelegate interceptorA) interceptorB
          Method.get "/x" none none).2.indexOf "B.after" := by
  refine ⟨rfl, by decide, by decide⟩

theorem wrapHttpDelegate_ok (dlg : HttpDelegate) (i : HttpInterceptor)
    (m : Method) (url : String) (b : Option Rsp) (o : Option HttpRequestOptions)
    (r : Rsp) (ev : List Ev)
    (h : dlg m (ctxAfterBefore i m url b o).1.url
        (passedBody m (ctxAfterBefore i m url b o).1)
        (finalOptionsOf (ctxAfterBefore i m url b o).1) = (Except.ok r, ev)) :
    wrapHttpDelegate dlg i m url b o
      = (Except.ok (afterOutcome i m (ctxAfterBefore i m url b o).1.url r).1,
         (ctxAfterBefore i m url b o).2 ++ ev
           ++ (afterOutcome i m (ctxAfterBefore i m url b o).1.url r).2) := by
  simp [wrapHttpDelegate, h]

theorem wrapHttpDelegate_err (dlg : HttpDelegate) (i : HttpInterceptor)
    (m : Method) (url : String) (b : Option Rsp) (o : Option HttpRequestOptions)
    (e : Err) (ev : List Ev)
    (h : dlg m (ctxAfterBefore i m url b o).1.url
        (passedBody m (ctxAfterBefore i m url b o).1)
        (finalOptionsOf (ctxAfterBefore i m url b o).1) = (Except.error e, ev)) :
    wrapHttpDelegate dlg i m url b o
      = (Except.error e,
         (ctxAfterBefore i m url b o).2 ++ ev
           ++ errorHookEvents i m (ctxAfterBefore i m url b o).1 e) := by
  simp [wrapHttpDelegate, h]

/-- C2 (amended): for delegate D wrapped first by A and then by B (all three
hooks of both interceptors present), the outermost wrap (B) runs its
`before` hook first on the request path and its `after` or `error` hook last
on the response path: the context the `before` of A receives carries exactly
the URL produced by the `before` merge of B; on success the order is the
`before` of B, the `before` of A, the transport, the `after` of A, the
`after` of B; on failure the order is the `before` of B, the `before` of A,
the transport, the `error` hook of A, the `error` hook of B, and the
original transport error still reaches the caller. -/
theorem onion_order
    (fbA fbB : RequestInterceptorContext → Option PartialRequestContext × List Ev)
    (faA faB : ResponseInterceptorContext → Option Rsp × List Ev)
    (feA feB : Method → String → Err → Option Rsp → List Ev)
    (dlg : HttpDelegate)
    (m : Method) (url : String) (b : Option Rsp) (o : Option HttpRequestOptions) :
    let A : HttpInterceptor := ⟨some fbA, some faA, some feA⟩
    let B : HttpInterceptor := ⟨some fbB, some faB, some feB⟩
    let ctx0 := initialCtx m url b o
    let ctxB := applyBeforeResult ctx0 (fbB ctx0).1
    let ctx1 := initialCtx m ctxB.url (passedBody m ctxB) (finalOptionsOf ctxB)
    let ctxA := applyBeforeResult ctx1 (fbA ctx1).1
    (ctx1.url = ctxB.url)
    ∧ (∀ (r : Rsp) (ev : List Ev),
        dlg m ctxA.url (passedBody m ctxA) (finalOptionsOf ctxA) = (Except.ok r, ev) →
        wrapHttpDelegate (wrapHttpDelegate dlg A) B m url b o
          = (Except.ok (applyAfterResult (applyAfterResult r (faA ⟨m, ctxA.url, r⟩).1)
                (faB ⟨m, ctxB.url, applyAfterResult r (faA ⟨m, ctxA.url, r⟩).1⟩).1),
             (fbB ctx0).2
               ++ ((fbA ctx1).2 ++ ev ++ (faA ⟨m, ctxA.url, r⟩).2)
               ++ (faB ⟨m, ctxB.url, applyAfterResult r (faA ⟨m, ctxA.url, r⟩).1⟩).2))
    ∧ (∀ (e : Err) (ev : List Ev),
        dlg m ctxA.url (passedBody m ctxA) (finalOptionsOf ctxA) = (Except.error e, ev) →
        wrapHttpDelegate (wrapHttpDelegate dlg A) B m url b o
          = (Except.error e,
             (fbB ctx0).2
               ++ ((fbA ctx1).2 ++ ev ++ feA m ctxA.url e ctxA.body)
               ++ feB m ctxB.url e ctxB.body)) := by
  intro A B ctx0 ctxB ctx1 ctxA
  refine ⟨rfl, ?_, ?_⟩
  · intro r ev h
    have hinner := wrapHttpDelegate_ok dlg A m ctxB.url (passedBody m ctxB)
      (finalOptionsOf ctxB) r ev h
    exact wrapHttpDelegate_ok (wrapHttpDelegate dlg A) B m url b o _ _ hinner
  · intro e ev h
    have hinner := wrapHttpDelegate_err dlg A m ctxB.url (passedBody m ctxB)
      (finalOptionsOf ctxB) e ev h
    exact wrapHttpDelegate_err (wrapHttpDelegate dlg A) B m url b o e _ hinner

def onionFailDelegate : HttpDelegate :=
  fun _ u _ _ => (Except.error "down", ["failed " ++ u])

theorem onion_order_witness :
    wrapHttpDelegate
        (wrapHttpDelegate onionDemoDelegate
          ⟨some (fun ctx => (some ⟨some "/A", none, none⟩, ["A.before saw " ++ ctx.url])),
           some (fun _ => (none, ["A.after"])), some (fun _ _ _ _ => ["A.error"])⟩)
        ⟨some (fun ctx => (none, ["B.before saw " ++ ctx.url])),
         some (fun _ => (none, ["B.after"])), some (fun _ _ _ _ => ["B.error"])⟩
        Method.get "/x" none none
      = (Except.ok (Rsp.vobj []),
         ["B.before saw /x", "A.before saw /x", "transport /A", "A.after", "B.after"])
    ∧ wrapHttpDelegate
        (wrapHttpDelegate onionFailDelegate
          ⟨some (fun ctx => (some ⟨some "/A", none, none⟩, ["A.before saw " ++ ctx.url])),
           some (fun _ => (none, ["A.after"])), some (fun _ _ _ _ => ["A.error"])⟩)
        ⟨some (fun ctx => (none, ["B.before saw " ++ ctx.url])),
         some (fun _ => (none, ["B.after"])), some (fun _ _ _ _ => ["B.error"])⟩
        Method.get "/x" none none
      = (Except.error "down",
         ["B.before saw /x", "A.before saw /x", "failed /A", "A.error", "B.error"]) := by
  have hok := onion_order
    (fun ctx => (some ⟨some "/A", none, none⟩, ["A.before saw " ++ ctx.url]))
    (fun ctx => (none, ["B.before saw " ++ ctx.url]))
    (fun _ => (none, ["A.after"])) (fun _ => (none, ["B.after"]))
    (fun _ _ _ _ => ["A.error"]) (fun _ _ _ _ => ["B.error"])
    onionDemoDelegate Method.get "/x" none none
  have herr := onion_order
    (fun ctx => (some ⟨some "/A", none, none⟩, ["A.before saw " ++ ctx.url]))
    (fun ctx => (none, ["B.before saw " ++ ctx.url]))
    (fun _ => (none, ["A.after"])) (fun _ => (none, ["B.after"]))
    (fun _ _ _ _ => ["A.error"]) (fun _ _ _ _ => ["B.error"])
    onionFailDelegate Method.get "/x" none none
  exact ⟨hok.2.1 (Rsp.vobj []) ["transport /A"] rfl,
         herr.2.2 "down" ["failed /A"] rfl⟩

/-- C5: when the underlying verb method rejects with an error, the wrapped
method still rejects with that same error after the `error` hook (which only
contributes trace events) has run — the hook can neither convert the failure
into a success nor suppress it. -/
theorem error_hook_not_suppressing (delegate : HttpDelegate) (i : HttpInterceptor)
    (m : Method) (url : String) (b : Option Rsp) (o : Option HttpRequestOptions) (e : Err)
    (hfail : ∀ u b2 o2, (delegate m u b2 o2).1 = Except.error e) :
    (wrapHttpDelegate delegate i m url b o).1 = Except.error e
    ∧ (wrapHttpDelegate delegate i m url b o).2
        = (ctxAfterBefore i m url b o).2
          ++ (delegate m (ctxAfterBefore i m url b o).1.url
                (passedBody m (ctxAfterBefore i m url b o).1)
                (finalOptionsOf (ctxAfterBefore i m url b o).1)).2
          ++ errorHookEvents i m (ctxAfterBefore i m url b o).1 e := by
  simp [wrapHttpDelegate, hfail]

def failingDelegate : HttpDelegate := fun _ _ _ _ => (Except.error "boom", ["net"])

def loggingInterceptor : HttpInterceptor := ⟨none, none, some (fun _ _ _ _ => ["logged"])⟩

theorem error_hook_not_suppressing_witness :
    (wrapHttpDelegate failingDelegate loggingInterceptor Method.get "/x" none none).1
      = Except.error "boom" :=
  (error_hook_not_suppressing failingDelegate loggingInterceptor Method.get "/x" none none
    "boom" (fun _ _ _ => rfl)).1

def afterDemoDelegate : HttpDelegate :=
  fun _ _ _ _ => (Except.ok (Rsp.vobj [("a", Prim.pnum 1)]), [])

def afterPatchInterceptor : HttpInterceptor :=
  ⟨none, some (fun _ => (some (Rsp.vobj [("b", Prim.pnum 2)]), [])), none⟩

/-- C6 counterexample: a delegate returning `{a: 1}` wrapped with an `after`
hook returning `{b: 2}` hands the caller the spread-merge `{a: 1, b: 2}`,
not the replacement `{b: 2}` the claim demands. -/
theorem after_merges_not_replaces :
    (wrapHttpDelegate afterDemoDelegate afterPatchInterceptor Method.get "/x" none none).1
      = Except.ok (Rsp.vobj [("a", Prim.pnum 1), ("b", Prim.pnum 2)])
    ∧ Rsp.vobj [("a", Prim.pnum 1), ("b", Prim.pnum 2)] ≠ Rsp.vobj [("b", Prim.pnum 2)] :=
  ⟨rfl, by decide⟩

/-- C6 (amended): on success the `after` hook is invoked with the method,
the post-before URL and the result; when it returns a non-null object, that
object is shallow-merged over the result (`{...response, ...afterResult}`) —
its keys overwrite, other result keys survive; a non-object (or absent)
return leaves the result unchanged. It is not a full-replacement transform. -/
theorem after_hook_semantics (delegate : HttpDelegate) (i : HttpInterceptor)
    (f : ResponseInterceptorContext → Option Rsp × List Ev) (hafter : i.after = some f)
    (m : Method) (url : String) (b : Option Rsp) (o : Option HttpRequestOptions)
    (r : Rsp) (ev : List Ev)
    (hok : delegate m (ctxAfterBefore i m url b o).1.url
        (passedBody m (ctxAfterBefore i m url b o).1)
        (finalOptionsOf (ctxAfterBefore i m url b o).1) = (Except.ok r, ev)) :
    wrapHttpDelegate delegate i m url b o
      = (Except.ok (applyAfterResult r (f ⟨m, (ctxAfterBefore i m url b o).1.url, r⟩).1),
         (ctxAfterBefore i m url b o).2 ++ ev
           ++ (f ⟨m, (ctxAfterBefore i m url b o).1.url, r⟩).2)
    ∧ (∀ resp ps, applyAfterResult resp (some (Rsp.vobj ps)) = Rsp.vobj (jsAssign resp.props ps))
    ∧ (∀ resp p, applyAfterResult resp (some (Rsp.vprim p)) = resp)
    ∧ (∀ resp, applyAfterResult resp none = resp) := by
  refine ⟨?_, fun _ _ => rfl, fun _ _ => rfl, fun _ => rfl⟩
  simp [wrapHttpDelegate, hok, afterOutcome, hafter]

theorem after_hook_semantics_witness :
    wrapHttpDelegate afterDemoDelegate afterPatchInterceptor Method.get "/x" none none
      = (Except.ok (Rsp.vobj [("a", Prim.pnum 1), ("b", Prim.pnum 2)]), ([] : List Ev)) :=
  (after_hook_semantics afterDemoDelegate afterPatchInterceptor _ rfl Method.get "/x" none none
    (Rsp.vobj [("a", Prim.pnum 1)]) [] rfl).1

/-- C10: the wrapped verb methods are insensitive to any `params` field in
the options of the caller, and the options object forwarded to the underlying
delegate (`{ headers: context.headers }` or `undefined`) always carries
`params: none` — `params` is silently dropped and never reaches the
underlying delegate. -/
theorem params_never_forwarded :
    (∀ (delegate : HttpDelegate) (i : HttpInterceptor) (m : Method) (url : String)
        (b : Option Rsp) (h : Option Headers) (p p2 : Option (List (String × String))),
        wrapHttpDelegate delegate i m url b (some ⟨h, p⟩)
          = wrapHttpDelegate delegate i m url b (some ⟨h, p2⟩))
    ∧ (∀ (i : HttpInterceptor) (m : Method) (url : String) (b : Option Rsp)
        (o : Option HttpRequestOptions) (ro : HttpRequestOptions),
        finalOptionsOf (ctxAfterBefore i m url b o).1 = some ro → ro.params = none) := by
  constructor
  · intro delegate i m url b h p p2
    rfl
  · intro i m url b o ro hro
    unfold finalOptionsOf at hro
    cases hh : (ctxAfterBefore i m url b o).1.headers with
    | none =>
      rw [hh] at hro
      exact Option.noConfusion hro
    | some hs =>
      rw [hh] at hro
      injection hro with h2
      rw [← h2]

theorem params_never_forwarded_witness :
    (⟨some [], none⟩ : HttpRequestOptions).params = none :=
  params_never_forwarded.2 ⟨none, none, none⟩ Method.get "/x" none
    (some ⟨some [], some [("q", "1")]⟩) ⟨some [], none⟩ rfl

/-- C8 counterexample: a URL with the `ftp:` scheme is *not* passed through
unchanged — the `before` hook only exempts URLs starting with the literal
prefix `"http"`, so `ftp://files.example.com/a` is rewritten onto the dev
base URL. -/
theorem environments_scheme_counterexample :
    (ctxAfterBefore (environmentsInterceptor devProdCfg (defaultKey devProdCfg))
        Method.get "ftp://files.example.com/a" none none).1.url
      = "http://localhost:3000/ftp://files.example.com/a"
    ∧ "http://localhost:3000/ftp://files.example.com/a" ≠ "ftp://files.example.com/a" :=
  ⟨rfl, by decide⟩

/-- C8 (amended): every verb call through the environments feature reaches
the transport with `buildFullURL(currentBaseURL, url)`; a URL starting with
the literal prefix `"http"` passes through unchanged, any other URL
(including other schemes) is treated as relative and appended to the current
base with single-slash normalization; with the dev/prod table the default
environment rewrites onto `http://localhost:3000`, and after
`setEnvironment('prod')` the same call rewrites onto
`https://api.example.com`. -/
theorem environments_url_rewriting :
    (∀ (cfg : EnvironmentsConfig) (cur : String) (m : Method) (url : String)
        (b : Option Rsp) (o : Option HttpRequestOptions),
        (ctxAfterBefore (environmentsInterceptor cfg cur) m url b o).1.url
          = buildFullURL (getBaseURL cfg cur) url)
    ∧ (∀ base url, strStartsWith url "http" = true → buildFullURL base url = url)
    ∧ (∀ base url, strStartsWith url "http" = false →
        buildFullURL base url
          = stripOneTrailingSlash base ++ (if strStartsWith url "/" then url else "/" ++ url))
    ∧ getBaseURL devProdCfg (defaultKey devProdCfg) = "http://localhost:3000"
    ∧ setEnvironment devProdCfg "prod" = "prod"
    ∧ getBaseURL devProdCfg "prod" = "https://api.example.com"
    ∧ buildFullURL (getBaseURL devProdCfg (defaultKey devProdCfg)) "/users/1"
        = "http://localhost:3000/users/1"
    ∧ buildFullURL (getBaseURL devProdCfg (setEnvironment devProdCfg "prod")) "/users/1"
        = "https://api.example.com/users/1" := by
  refine ⟨fun cfg cur m url b o => rfl, ?_, ?_, by decide, by decide, by decide,
    by decide, by decide⟩
  · intro base url h
    simp [buildFullURL, h]
  · intro base url h
    simp [buildFullURL, h]

theorem environments_url_rewriting_witness :
    buildFullURL "http://localhost:3000" "https://cdn.example.com/x"
        = "https://cdn.example.com/x"
    ∧ buildFullURL "http://localhost:3000/" "users/1" = "http://localhost:3000/users/1" :=
  ⟨environments_url_rewriting.2.1 "http://localhost:3000" "https://cdn.example.com/x" (by decide),
   (environments_url_rewriting.2.2.1 "http://localhost:3000/" "users/1" (by decide)).trans
     (by decide)⟩

def zeroNet : Method → String → Option Rsp → Except Err Rsp :=
  fun _ _ _ => Except.ok (Rsp.vprim (Prim.pnum 0))

/-- C7 counterexample: in cache-first mode with a network result of `0`
(falsy), the first online call populates the cache, but the identical second
call within the TTL re-invokes the network (`if (cached)` treats the cached
falsy value as a miss), contradicting the claimed zero additional network
invocations. -/
theorem falsy_cache_refetches :
    (cacheFirstCall 300000 true 0 zeroNet Method.get "/users/1" none ⟨[], 0⟩).2.netCalls = 1
    ∧ (cacheFirstCall 300000 true 1 zeroNet Method.get "/users/1" none
        (cacheFirstCall 300000 true 0 zeroNet Method.get "/users/1" none ⟨[], 0⟩).2).2.netCalls
        = 2
    ∧ ¬ ((cacheFirstCall 300000 true 1 zeroNet Method.get "/users/1" none
        (cacheFirstCall 300000 true 0 zeroNet Method.get "/users/1" none ⟨[], 0⟩).2).2.netCalls
        = 1) := by
  decide

/-- C7 (amended): in cache-first mode, starting from an empty cache while
online, the first call invokes the network exactly once, returns its result
and populates the cache; an identical call within the TTL — provided the
cached result is truthy (the hit check is `if (cached)`) — performs zero
additional network invocations and returns the same result with the state
unchanged; and any call whose key is uncached while offline rejects with the
distinct `[OFFLINE]`-labelled error without touching the network. -/
theorem cache_first_behavior (ttl now now2 : Nat)
    (net : Method → String → Option Rsp → Except Err Rsp)
    (m : Method) (url : String) (bodyArg : Option Rsp) (r : Rsp)
    (hnet : net m url (effBody m bodyArg) = Except.ok r)
    (htruthy : r.truthy = true) (hfresh : now2 - now ≤ ttl) :
    (cacheFirstCall ttl true now net m url bodyArg ⟨[], 0⟩).1 = Except.ok r
    ∧ (cacheFirstCall ttl true now net m url bodyArg ⟨[], 0⟩).2.netCalls = 1
    ∧ jsLookup (cacheFirstCall ttl true now net m url bodyArg ⟨[], 0⟩).2.cache
        (generateCacheKey m.nameStr url (effBody m bodyArg)) = some ⟨r, now, ttl⟩
    ∧ (cacheFirstCall ttl true now2 net m url bodyArg
        (cacheFirstCall ttl true now net m url bodyArg ⟨[], 0⟩).2).1 = Except.ok r
    ∧ (cacheFirstCall ttl true now2 net m url bodyArg
        (cacheFirstCall ttl true now net m url bodyArg ⟨[], 0⟩).2).2.netCalls = 1
    ∧ (∀ (s : OffState) (now3 : Nat) (m2 : Method) (url2 : String) (b2 : Option Rsp),
        jsLookup s.cache (generateCacheKey m2.nameStr url2 (effBody m2 b2)) = none →
        cacheFirstCall ttl false now3 net m2 url2 b2 s
          = (Except.error (offlineError m2 url2), s)) := by
  have h1 : cacheFirstCall ttl true now net m url bodyArg ⟨[], 0⟩
      = (Except.ok r,
         ⟨[(generateCacheKey m.nameStr url (effBody m bodyArg),
            ⟨r, now, ttl⟩)], 1⟩) := by
    simp [cacheFirstCall, getFromCache, jsLookup, hnet, setKey]
  have hng : ¬ (now2 - now > ttl) := by omega
  have h2 : cacheFirstCall ttl true now2 net m url bodyArg
      ⟨[(generateCacheKey m.nameStr url (effBody m bodyArg), ⟨r, now, ttl⟩)], 1⟩
      = (Except.ok r,
         ⟨[(generateCacheKey m.nameStr url (effBody m bodyArg), ⟨r, now, ttl⟩)], 1⟩) := by
    simp [cacheFirstCall, getFromCache, jsLookup, hng, htruthy]
  refine ⟨?_, ?_, ?_, ?_, ?_, ?_⟩
  · rw [h1]
  · rw [h1]
  · rw [h1]
    simp [jsLookup]
  · rw [h1, h2]
  · rw [h1, h2]
  · intro s now3 m2 url2 b2 hnone
    simp [cacheFirstCall, getFromCache, hnone]

def userNet : Method → String → Option Rsp → Except Err Rsp :=
  fun _ _ _ => Except.ok (Rsp.vobj [("id", Prim.pnum 1)])

theorem cache_first_behavior_witness :
    (cacheFirstCall 300000 true 1000 userNet Method.get "/users/1" none
        (cacheFirstCall 300000 true 0 userNet Method.get "/users/1" none ⟨[], 0⟩).2).2.netCalls
      = 1
    ∧ cacheFirstCall 300000 false 0 userNet Method.get "/users/2" none ⟨[], 0⟩
        = (Except.error (offlineError Method.get "/users/2"), ⟨[], 0⟩) := by
  have h := cache_first_behavior 300000 0 1000 userNet Method.get "/users/1" none
    (Rsp.vobj [("id", Prim.pnum 1)]) rfl rfl (by decide)
  exact ⟨h.2.2.2.2.1, h.2.2.2.2.2 ⟨[], 0⟩ 0 Method.get "/users/2" none rfl⟩

end UniversalClient
